import Mathlib

/-!
Verification of the core algorithms of the Anki Math Drill addon.

The Python modules `json_storage.py`, `levels_manager.py`, `coach.py` and
`gamification.py` are shallowly embedded below: the JSON collections become
Lean lists of structures, Python floats become rationals, ISO date and
timestamp strings (which the code only ever compares for order and equality)
become naturals, and Python's stable `list.sort` becomes the stable
`List.insertionSort`.
-/

namespace MathDrill

/-- The four arithmetic operations tracked by the addon. -/
inductive Operation
  | Addition
  | Subtraction
  | Multiplication
  | Division
deriving DecidableEq, Repr

/-- The mastery labels stored by `update_weakness_tracking`. -/
inductive Mastery
  | Novice
  | Apprentice
  | Pro
  | Master
deriving DecidableEq, Repr

/-- One record of `attempts.json` (the fields consulted by the algorithms;
`created`, `timestamp` and the like are order-compared strings, embedded as
naturals). -/
structure Attempt where
  operation : Operation
  digits : Nat
  correct : Bool
  time_taken : ℚ
  timestamp : Nat
deriving DecidableEq, Repr

/-- Replace the first element satisfying `p` by its image under `f`; this is
how the Python code mutates the single matching record of a loaded JSON list
before saving the whole list back. -/
def replaceFirst {α : Type} (l : List α) (p : α → Bool) (f : α → α) : List α :=
  match l with
  | [] => []
  | x :: xs => if p x then f x :: xs else x :: replaceFirst xs p f

/-- Function `get_attempts_by_operation_digits` of `json_storage.py`: filter the
attempts of one skill cell, sort by timestamp descending (Python's stable
`sort(key=timestamp, reverse=True)`), return the first `limit`. -/
def get_attempts_by_operation_digits (attempts : List Attempt) (op : Operation)
    (digits : Nat) (limit : Nat) : List Attempt :=
  let filtered := attempts.filter (fun a => a.operation == op && a.digits == digits)
  (filtered.insertionSort (fun a b => b.timestamp ≤ a.timestamp)).take limit

/-- One record of `weakness_tracking.json`. -/
structure WeaknessEntry where
  operation : Operation
  digits : Nat
  weakness_score : ℚ
  consecutive_correct : Nat
  last_practiced : Nat
  mastery_level : Mastery
  total_attempts : Nat
  total_correct : Nat
  avg_time : ℚ
deriving DecidableEq, Repr

/-- The weakness-score / mastery-level banding of `update_weakness_tracking`
(`json_storage.py`): fewer than 3 recent samples default to `(80, Novice)`,
otherwise a step function of the recent accuracy and average time. -/
def weaknessClassify (recent : List Attempt) : ℚ × Mastery :=
  if recent.length < 3 then (80, Mastery.Novice)
  else
    let recent_accuracy : ℚ := (recent.countP (fun a => a.correct) : ℚ) / (recent.length : ℚ)
    let recent_avg_time : ℚ := ((recent.map (fun a => a.time_taken)).sum) / (recent.length : ℚ)
    if recent_accuracy ≥ 9/10 ∧ recent_avg_time < 4 then (10, Mastery.Master)
    else if recent_accuracy ≥ 8/10 then (30, Mastery.Pro)
    else if recent_accuracy ≥ 6/10 then (60, Mastery.Apprentice)
    else (90, Mastery.Novice)

/-- The `weakness_entry` dictionary built by `update_weakness_tracking` from
the attempts store and the previously stored entry (if any). -/
def weakness_entry_for (attempts : List Attempt) (weakness_data : List WeaknessEntry)
    (op : Operation) (digits : Nat) (correct : Bool) (today : Nat) : WeaknessEntry :=
  let recent := get_attempts_by_operation_digits attempts op digits 10
  let scored := weaknessClassify recent
  let existing := weakness_data.find? (fun e => e.operation == op && e.digits == digits)
  let consecutive :=
    if correct then
      match existing with
      | some e => e.consecutive_correct + 1
      | none => 1
    else 0
  let all := get_attempts_by_operation_digits attempts op digits 1000
  { operation := op
    digits := digits
    weakness_score := scored.1
    consecutive_correct := consecutive
    last_practiced := today
    mastery_level := scored.2
    total_attempts := all.length
    total_correct := all.countP (fun a => a.correct)
    avg_time := if all.length = 0 then 0 else ((all.map (fun a => a.time_taken)).sum) / (all.length : ℚ) }

/-- Function `update_weakness_tracking` at the store level: the freshly computed entry
replaces the first existing entry of the same cell, or is appended. -/
def update_weakness_tracking (attempts : List Attempt) (weakness_data : List WeaknessEntry)
    (op : Operation) (digits : Nat) (correct : Bool) (today : Nat) : List WeaknessEntry :=
  let entry := weakness_entry_for attempts weakness_data op digits correct today
  if (weakness_data.find? (fun e => e.operation == op && e.digits == digits)).isSome then
    replaceFirst weakness_data (fun e => e.operation == op && e.digits == digits) (fun _ => entry)
  else weakness_data ++ [entry]

/-- C1: for every skill-profile update, with fewer than 3 recent attempts the
stored pair is `(80, Novice)`; otherwise the step function of recent accuracy
and recent average time over the at-most-10 most recent attempts gives
`(10, Master)`, `(30, Pro)`, `(60, Apprentice)` or `(90, Novice)`; a cell with
exactly two attempts, both correct, gets `(80, Novice)`; and every stored
weakness score lies in `{10, 30, 60, 80, 90}`. -/
theorem C1_weakness_banding (attempts : List Attempt) (weakness_data : List WeaknessEntry)
    (op : Operation) (digits : Nat) (correct : Bool) (today : Nat) :
    let recent := get_attempts_by_operation_digits attempts op digits 10
    let n := recent.length
    let acc : ℚ := (recent.countP (fun a => a.correct) : ℚ) / (n : ℚ)
    let t : ℚ := ((recent.map (fun a => a.time_taken)).sum) / (n : ℚ)
    let e := weakness_entry_for attempts weakness_data op digits correct today
    (n < 3 → e.weakness_score = 80 ∧ e.mastery_level = Mastery.Novice)
    ∧ (3 ≤ n → acc ≥ 9/10 → t < 4 →
        e.weakness_score = 10 ∧ e.mastery_level = Mastery.Master)
    ∧ (3 ≤ n → ¬(acc ≥ 9/10 ∧ t < 4) → acc ≥ 8/10 →
        e.weakness_score = 30 ∧ e.mastery_level = Mastery.Pro)
    ∧ (3 ≤ n → ¬(acc ≥ 9/10 ∧ t < 4) → ¬acc ≥ 8/10 → acc ≥ 6/10 →
        e.weakness_score = 60 ∧ e.mastery_level = Mastery.Apprentice)
    ∧ (3 ≤ n → ¬(acc ≥ 9/10 ∧ t < 4) → ¬acc ≥ 8/10 → ¬acc ≥ 6/10 →
        e.weakness_score = 90 ∧ e.mastery_level = Mastery.Novice)
    ∧ (n = 2 → e.weakness_score = 80 ∧ e.mastery_level = Mastery.Novice)
    ∧ e.weakness_score ∈ ({10, 30, 60, 80, 90} : Set ℚ) := by
  intro recent n acc t e
  have he : e.weakness_score = (weaknessClassify recent).1 ∧
      e.mastery_level = (weaknessClassify recent).2 := by
    constructor <;> rfl
  have hclass : weaknessClassify recent =
      (if recent.length < 3 then (80, Mastery.Novice)
       else if acc ≥ 9/10 ∧ t < 4 then (10, Mastery.Master)
       else if acc ≥ 8/10 then (30, Mastery.Pro)
       else if acc ≥ 6/10 then (60, Mastery.Apprentice)
       else (90, Mastery.Novice)) := rfl
  rw [hclass] at he
  refine ⟨?_, ?_, ?_, ?_, ?_, ?_, ?_⟩
  · intro h
    simp only [show recent.length = n from rfl, if_pos h] at he
    exact he
  · intro h3 hacc ht
    have hn : ¬ n < 3 := by omega
    have hc : acc ≥ 9/10 ∧ t < 4 := ⟨hacc, ht⟩
    simp only [show recent.length = n from rfl, if_neg hn, if_pos hc] at he
    exact he
  · intro h3 hnot hacc
    have hn : ¬ n < 3 := by omega
    simp only [show recent.length = n from rfl, if_neg hn, if_neg hnot, if_pos hacc] at he
    exact he
  · intro h3 hnot hnacc hacc
    have hn : ¬ n < 3 := by omega
    simp only [show recent.length = n from rfl, if_neg hn, if_neg hnot, if_neg hnacc,
      if_pos hacc] at he
    exact he
  · intro h3 hnot hnacc hnacc2
    have hn : ¬ n < 3 := by omega
    simp only [show recent.length = n from rfl, if_neg hn, if_neg hnot, if_neg hnacc,
      if_neg hnacc2] at he
    exact he
  · intro h2
    have hn : n < 3 := by omega
    simp only [show recent.length = n from rfl, if_pos hn] at he
    exact he
  · by_cases h1 : recent.length < 3
    · simp only [if_pos h1] at he
      simp [he.1]
    · simp only [if_neg h1] at he
      by_cases h2 : acc ≥ 9/10 ∧ t < 4
      · simp only [if_pos h2] at he
        simp [he.1]
      · simp only [if_neg h2] at he
        by_cases h3 : acc ≥ 8/10
        · simp only [if_pos h3] at he
          simp [he.1]
        · simp only [if_neg h3] at he
          by_cases h4 : acc ≥ 6/10
          · simp only [if_pos h4] at he
            simp [he.1]
          · simp only [if_neg h4] at he
            simp [he.1]

/-- The store of the spec scenario for C1: two correct 1-digit addition
attempts. -/
def c1Attempts : List Attempt :=
  [⟨Operation.Addition, 1, true, 2, 1⟩, ⟨Operation.Addition, 1, true, 3, 2⟩]

/-- Witness for C1 at the spec scenario: a cell with exactly two attempts,
both correct, is stored with weakness score 80 and mastery `Novice`. -/
theorem C1_weakness_banding_witness :
    (weakness_entry_for c1Attempts [] Operation.Addition 1 true 3).weakness_score = 80 ∧
    (weakness_entry_for c1Attempts [] Operation.Addition 1 true 3).mastery_level = Mastery.Novice := by
  have h := C1_weakness_banding c1Attempts [] Operation.Addition 1 true 3
  exact h.2.2.2.2.2.1 (by decide)

/-- One sample of the `recent_performance` FIFO window of
`adaptive_difficulty.json`. -/
structure PerfSample where
  correct : Bool
  time_taken : ℚ
  timestamp : Nat
deriving DecidableEq, Repr

/-- One record of `adaptive_difficulty.json`. -/
structure AdaptiveEntry where
  operation : Operation
  digits : Nat
  current_difficulty : ℚ
  success_rate : ℚ
  avg_response_time : ℚ
  total_attempts : Nat
  recent_performance : List PerfSample
deriving DecidableEq, Repr

/-- The existing-record branch of `update_adaptive_difficulty`
(`json_storage.py`): push the new sample, keep the last 10, recompute the
success rate, smooth the average response time, and move the clamped
difficulty by the step function of the new success rate and the new time. -/
def updateExistingAdaptive (e : AdaptiveEntry) (correct : Bool) (time_taken : ℚ)
    (today : Nat) : AdaptiveEntry :=
  let appended := e.recent_performance ++ [⟨correct, time_taken, today⟩]
  let recent_perf := if 10 < appended.length then appended.drop (appended.length - 10) else appended
  let new_success_rate : ℚ := (recent_perf.countP (fun s => s.correct) : ℚ) / (recent_perf.length : ℚ)
  let new_avg_time : ℚ :=
    if e.avg_response_time = 0 then time_taken
    else e.avg_response_time * (8/10) + time_taken * (2/10)
  let adjustment_factor : ℚ := 1/10
  let difficulty_change : ℚ :=
    if new_success_rate > 85/100 ∧ time_taken < 3 then adjustment_factor * (3/2)
    else if new_success_rate > 75/100 then adjustment_factor
    else if new_success_rate < 4/10 then -adjustment_factor * (12/10)
    else if new_success_rate < 6/10 then -adjustment_factor * (8/10)
    else 0
  let new_difficulty := max (1/2) (min 3 (e.current_difficulty + difficulty_change))
  { e with
    current_difficulty := new_difficulty
    success_rate := new_success_rate
    avg_response_time := new_avg_time
    total_attempts := e.total_attempts + 1
    recent_performance := recent_perf }

/-- The new-record branch of `update_adaptive_difficulty`. -/
def newAdaptiveEntry (op : Operation) (digits : Nat) (correct : Bool) (time_taken : ℚ)
    (today : Nat) : AdaptiveEntry :=
  { operation := op
    digits := digits
    current_difficulty := 1
    success_rate := if correct then 1 else 0
    avg_response_time := time_taken
    total_attempts := 1
    recent_performance := [⟨correct, time_taken, today⟩] }

/-- Function `update_adaptive_difficulty` at the store level: the first record of the
cell is updated in place, or a fresh record is appended. -/
def update_adaptive_difficulty (store : List AdaptiveEntry) (op : Operation) (digits : Nat)
    (correct : Bool) (time_taken : ℚ) (today : Nat) : List AdaptiveEntry :=
  if (store.find? (fun e => e.operation == op && e.digits == digits)).isSome then
    replaceFirst store (fun e => e.operation == op && e.digits == digits)
      (fun e => updateExistingAdaptive e correct time_taken today)
  else store ++ [newAdaptiveEntry op digits correct time_taken today]

/-- One call of `update_adaptive_difficulty`, as data. -/
structure AdaptiveOp where
  operation : Operation
  digits : Nat
  correct : Bool
  time_taken : ℚ
  today : Nat

/-- Run a sequence of adaptive-difficulty updates against an initially empty
store. -/
def runAdaptive (ops : List AdaptiveOp) : List AdaptiveEntry :=
  ops.foldl (fun st o => update_adaptive_difficulty st o.operation o.digits o.correct o.time_taken o.today) []

/-- The record invariant of the adaptive store: clamped difficulty and a
window of at most 10 samples. -/
def adaptiveInv (e : AdaptiveEntry) : Prop :=
  1/2 ≤ e.current_difficulty ∧ e.current_difficulty ≤ 3 ∧ e.recent_performance.length ≤ 10

theorem adaptiveInv_updateExisting (e : AdaptiveEntry) (c : Bool) (t : ℚ) (d : Nat) :
    adaptiveInv (updateExistingAdaptive e c t d) := by
  refine ⟨le_max_left _ _, max_le (by norm_num) (min_le_left _ _), ?_⟩
  have hperf : (updateExistingAdaptive e c t d).recent_performance =
      (if 10 < (e.recent_performance ++ [PerfSample.mk c t d]).length
       then (e.recent_performance ++ [PerfSample.mk c t d]).drop ((e.recent_performance ++ [PerfSample.mk c t d]).length - 10)
       else e.recent_performance ++ [PerfSample.mk c t d]) := rfl
  rw [hperf]
  by_cases h : 10 < (e.recent_performance ++ [PerfSample.mk c t d]).length
  · rw [if_pos h, List.length_drop]
    omega
  · rw [if_neg h]
    omega

theorem adaptiveInv_newEntry (op : Operation) (digits : Nat) (c : Bool) (t : ℚ) (d : Nat) :
    adaptiveInv (newAdaptiveEntry op digits c t d) := by
  unfold adaptiveInv newAdaptiveEntry
  refine ⟨by norm_num, by norm_num, by simp⟩

theorem mem_replaceFirst {α : Type} (l : List α) (p : α → Bool) (f : α → α) (x : α)
    (hx : x ∈ replaceFirst l p f) : x ∈ l ∨ ∃ y, y ∈ l ∧ x = f y := by
  induction l with
  | nil => simp [replaceFirst] at hx
  | cons a as ih =>
    simp only [replaceFirst] at hx
    by_cases hp : p a
    · rw [if_pos hp] at hx
      rcases List.mem_cons.mp hx with h | h
      · exact Or.inr ⟨a, List.mem_cons_self a as, h⟩
      · exact Or.inl (List.mem_cons_of_mem a h)
    · rw [if_neg hp] at hx
      rcases List.mem_cons.mp hx with h | h
      · exact Or.inl (h ▸ List.mem_cons_self a as)
      · rcases ih h with h2 | ⟨y, hy, hxy⟩
        · exact Or.inl (List.mem_cons_of_mem a h2)
        · exact Or.inr ⟨y, List.mem_cons_of_mem a hy, hxy⟩

theorem adaptiveInv_update (store : List AdaptiveEntry) (op : Operation) (digits : Nat)
    (c : Bool) (t : ℚ) (d : Nat) (hstore : ∀ e ∈ store, adaptiveInv e) :
    ∀ e ∈ update_adaptive_difficulty store op digits c t d, adaptiveInv e := by
  intro e he
  unfold update_adaptive_difficulty at he
  by_cases hfind : (store.find? (fun e => e.operation == op && e.digits == digits)).isSome
  · rw [if_pos hfind] at he
    rcases mem_replaceFirst _ _ _ _ he with h | ⟨y, _, hxy⟩
    · exact hstore e h
    · exact hxy ▸ adaptiveInv_updateExisting y c t d
  · rw [if_neg hfind] at he
    rcases List.mem_append.mp he with h | h
    · exact hstore e h
    · rw [List.mem_singleton.mp h]
      exact adaptiveInv_newEntry op digits c t d

theorem adaptiveInv_foldl (ops : List AdaptiveOp) (store : List AdaptiveEntry)
    (hstore : ∀ e ∈ store, adaptiveInv e) :
    ∀ e ∈ ops.foldl (fun st o =>
        update_adaptive_difficulty st o.operation o.digits o.correct o.time_taken o.today) store,
      adaptiveInv e := by
  induction ops generalizing store with
  | nil => exact hstore
  | cons o os ih =>
    intro e he
    exact ih _ (adaptiveInv_update store o.operation o.digits o.correct o.time_taken o.today hstore) e he

/-- C2: the existing-record branch of an adaptive-difficulty update keeps the
most recent at-most-10 samples (the new one included), sets the success rate
to correct-count over window size, smooths the average response time
(`timeTaken` when the old average was 0, otherwise `0.8·old + 0.2·timeTaken`),
and clamps `oldDifficulty + delta` into `[0.5, 3.0]` with the claimed step
function for `delta`; consequently, over every input sequence run from an
empty store, every record keeps its difficulty in `[0.5, 3.0]` and its window
at length at most 10. -/
theorem C2_adaptive_update (e : AdaptiveEntry) (c : Bool) (t : ℚ) (today : Nat)
    (ops : List AdaptiveOp) :
    let u := updateExistingAdaptive e c t today
    let sr := u.success_rate
    let clamp : ℚ → ℚ := fun x => max (1/2) (min 3 x)
    u.recent_performance.length = min (e.recent_performance.length + 1) 10
    ∧ u.recent_performance <:+ e.recent_performance ++ [PerfSample.mk c t today]
    ∧ u.success_rate =
        (u.recent_performance.countP (fun s => s.correct) : ℚ) / (u.recent_performance.length : ℚ)
    ∧ (e.avg_response_time = 0 → u.avg_response_time = t)
    ∧ (e.avg_response_time ≠ 0 →
        u.avg_response_time = e.avg_response_time * (8/10) + t * (2/10))
    ∧ (sr > 85/100 → t < 3 →
        u.current_difficulty = clamp (e.current_difficulty + (1/10) * (3/2)))
    ∧ (¬(sr > 85/100 ∧ t < 3) → sr > 75/100 →
        u.current_difficulty = clamp (e.current_difficulty + 1/10))
    ∧ (¬(sr > 85/100 ∧ t < 3) → ¬sr > 75/100 → sr < 4/10 →
        u.current_difficulty = clamp (e.current_difficulty + -(1/10) * (12/10)))
    ∧ (¬(sr > 85/100 ∧ t < 3) → ¬sr > 75/100 → ¬sr < 4/10 → sr < 6/10 →
        u.current_difficulty = clamp (e.current_difficulty + -(1/10) * (8/10)))
    ∧ (¬(sr > 85/100 ∧ t < 3) → ¬sr > 75/100 → ¬sr < 4/10 → ¬sr < 6/10 →
        u.current_difficulty = clamp (e.current_difficulty + 0))
    ∧ (1/2 ≤ u.current_difficulty ∧ u.current_difficulty ≤ 3)
    ∧ (∀ a ∈ runAdaptive ops,
        1/2 ≤ a.current_difficulty ∧ a.current_difficulty ≤ 3 ∧ a.recent_performance.length ≤ 10) := by
  intro u sr clamp
  have hperf : u.recent_performance =
      (if 10 < (e.recent_performance ++ [PerfSample.mk c t today]).length
       then (e.recent_performance ++ [PerfSample.mk c t today]).drop ((e.recent_performance ++ [PerfSample.mk c t today]).length - 10)
       else e.recent_performance ++ [PerfSample.mk c t today]) := rfl
  have hcd : u.current_difficulty = clamp (e.current_difficulty +
      (if sr > 85/100 ∧ t < 3 then (1/10) * (3/2)
       else if sr > 75/100 then 1/10
       else if sr < 4/10 then -(1/10) * (12/10)
       else if sr < 6/10 then -(1/10) * (8/10)
       else 0)) := rfl
  have havg : u.avg_response_time =
      (if e.avg_response_time = 0 then t
       else e.avg_response_time * (8/10) + t * (2/10)) := rfl
  refine ⟨?_, ?_, rfl, ?_, ?_, ?_, ?_, ?_, ?_, ?_, ?_, ?_⟩
  · rw [hperf]
    by_cases h : 10 < (e.recent_performance ++ [PerfSample.mk c t today]).length
    · rw [if_pos h, List.length_drop]
      simp only [List.length_append, List.length_singleton] at h ⊢
      omega
    · rw [if_neg h]
      simp only [List.length_append, List.length_singleton] at h ⊢
      omega
  · rw [hperf]
    by_cases h : 10 < (e.recent_performance ++ [PerfSample.mk c t today]).length
    · rw [if_pos h]
      exact List.drop_suffix _ _
    · rw [if_neg h]
  · intro h
    rw [havg, if_pos h]
  · intro h
    rw [havg, if_neg h]
  · intro h1 h2
    rw [hcd, if_pos ⟨h1, h2⟩]
  · intro h1 h2
    rw [hcd, if_neg h1, if_pos h2]
  · intro h1 h2 h3
    rw [hcd, if_neg h1, if_neg h2, if_pos h3]
  · intro h1 h2 h3 h4
    rw [hcd, if_neg h1, if_neg h2, if_neg h3, if_pos h4]
  · intro h1 h2 h3 h4
    rw [hcd, if_neg h1, if_neg h2, if_neg h3, if_neg h4]
  · rw [hcd]
    exact ⟨le_max_left _ _, max_le (by norm_num) (min_le_left _ _)⟩
  · intro a ha
    exact adaptiveInv_foldl ops [] (by intro x hx; simp at hx) a ha

/-- A concrete adaptive record with zero stored average response time. -/
def c2Entry : AdaptiveEntry :=
  ⟨Operation.Addition, 1, 1, 1/2, 0, 0, []⟩

/-- Witness for C2: updating a record whose stored average is 0 sets the new
average response time to the time taken. -/
theorem C2_adaptive_update_witness :
    (updateExistingAdaptive c2Entry true 2 0).avg_response_time = 2 :=
  (C2_adaptive_update c2Entry true 2 0 []).2.2.2.1 rfl

/-- C10: the first `update_adaptive_difficulty` call for a cell with no
existing record appends a record with difficulty exactly 1.0 (the delta step
function is not applied), success rate 1 or 0 according to correctness,
average response time equal to the time taken, one total attempt, and a
one-element performance window. -/
theorem C10_first_adaptive (store : List AdaptiveEntry) (op : Operation) (digits : Nat)
    (c : Bool) (t : ℚ) (today : Nat)
    (h : store.find? (fun e => e.operation == op && e.digits == digits) = none) :
    update_adaptive_difficulty store op digits c t today =
      store ++ [{ operation := op
                  digits := digits
                  current_difficulty := 1
                  success_rate := if c then 1 else 0
                  avg_response_time := t
                  total_attempts := 1
                  recent_performance := [PerfSample.mk c t today] }] := by
  unfold update_adaptive_difficulty
  rw [h]
  rfl

/-- Witness for C10: the first update of an empty store, with an incorrect
answer in 2 seconds, creates the default-difficulty record. -/
theorem C10_first_adaptive_witness :
    update_adaptive_difficulty [] Operation.Addition 1 false 2 5 =
      [⟨Operation.Addition, 1, 1, 0, 2, 1, [⟨false, 2, 5⟩]⟩] :=
  C10_first_adaptive [] Operation.Addition 1 false 2 5 rfl

/-- The `requirements` block of a level definition (`level_data.json`). -/
structure Requirements where
  totalQuestions : Nat
  minAccuracy : ℚ
  timeLimit : Option ℚ
  minCorrect : Nat
deriving DecidableEq, Repr

/-- A level definition, restricted to the fields `complete_level` consults. -/
structure LevelDef where
  id : Nat
  requirements : Requirements
deriving DecidableEq, Repr

/-- The stats dictionary produced by `LevelsManager._calculate_stats`. -/
structure LevelStats where
  passed_requirements : Bool
  stars : Nat
  accuracy : ℚ
  time : ℚ
  correct : Nat
  total : Nat
deriving DecidableEq, Repr

/-- Method `LevelsManager._calculate_stats` of `levels_manager.py`: pass iff enough
correct answers; accuracy in percent; stars 1/2/3 by accuracy thresholds with
a one-star demotion, floored at 1, when a (truthy, hence nonzero) time limit
is exceeded; 0 stars on a fail. -/
def calculate_stats (level : LevelDef) (correct total : Nat) (time : ℚ) : LevelStats :=
  let reqs := level.requirements
  let accuracy : ℚ := if 0 < total then (correct : ℚ) / (total : ℚ) * 100 else 0
  let stars : Nat :=
    if reqs.minCorrect ≤ correct then
      let base := if accuracy ≥ 98 then 3 else if accuracy ≥ 93 then 2 else 1
      match reqs.timeLimit with
      | some tl => if tl ≠ 0 ∧ time > tl then max 1 (base - 1) else base
      | none => base
    else 0
  { passed_requirements := decide (reqs.minCorrect ≤ correct)
    stars := stars
    accuracy := accuracy
    time := time
    correct := correct
    total := total }

/-- One record of `level_completion.json`, keyed by level id. -/
structure CompletionRecord where
  levelId : Nat
  starsEarned : Nat
  correctAnswers : Nat
  totalQuestions : Nat
  bestAccuracy : ℚ
  bestTime : ℚ
  isNewRecord : Bool
deriving DecidableEq, Repr

/-- Method `LevelsManager._should_save_result`: always save a first attempt; against
an existing record, save exactly when more stars, or equal stars and strictly
higher accuracy, or equal stars, accuracy within the 0.01 float epsilon, and
strictly lower time (a stored best time of 0 counts as infinity). -/
def is_better_chain (old : CompletionRecord) (new : LevelStats) : Bool :=
  if old.starsEarned < new.stars then true
  else if new.stars = old.starsEarned then
    if old.bestAccuracy < new.accuracy then true
    else if |new.accuracy - old.bestAccuracy| < 1/100 then
      if old.bestTime = 0 then true
      else decide (new.time < old.bestTime)
    else false
  else false

def should_save_result (completions : Nat → Option CompletionRecord) (level_id : Nat)
    (new : LevelStats) : Bool × Bool :=
  match completions level_id with
  | none => (true, true)
  | some old => (is_better_chain old new, is_better_chain old new)

/-- Method `LevelsManager._save_level_result`: write the completion entry for the
level. -/
def save_level_result (completions : Nat → Option CompletionRecord) (level_id : Nat)
    (stats : LevelStats) (is_new_record : Bool) : Nat → Option CompletionRecord :=
  fun i => if i = level_id then
    some { levelId := level_id
           starsEarned := stats.stars
           correctAnswers := stats.correct
           totalQuestions := stats.total
           bestAccuracy := stats.accuracy
           bestTime := stats.time
           isNewRecord := is_new_record }
  else completions i

/-- Method `LevelsManager.complete_level`, restricted to its effect on the stored
completion records. -/
def complete_level (completions : Nat → Option CompletionRecord) (level : LevelDef)
    (correct total : Nat) (time : ℚ) : Nat → Option CompletionRecord :=
  let stats := calculate_stats level correct total time
  let sr := should_save_result completions level.id stats
  if sr.1 then save_level_result completions level.id stats sr.2 else completions

/-- C4: for every level evaluation that passes (`minCorrect ≤ correct`), with
accuracy `correct/total·100`, the base stars are 3 at accuracy ≥ 98, else 2
at ≥ 93, else 1; with a (nonzero) time limit exceeded the stars are demoted
by exactly one, floored at 1; and a passing attempt never yields 0 stars. -/
theorem C4_star_grading (level : LevelDef) (c tot : Nat) (t : ℚ)
    (hp : level.requirements.minCorrect ≤ c) :
    let s := calculate_stats level c tot t
    let base : Nat := if s.accuracy ≥ 98 then 3 else if s.accuracy ≥ 93 then 2 else 1
    s.passed_requirements = true
    ∧ (level.requirements.timeLimit = none → s.stars = base)
    ∧ (∀ tl, level.requirements.timeLimit = some tl → ¬(tl ≠ 0 ∧ t > tl) → s.stars = base)
    ∧ (∀ tl, level.requirements.timeLimit = some tl → tl ≠ 0 → t > tl →
        s.stars = max 1 (base - 1))
    ∧ 1 ≤ s.stars := by
  intro s base
  have hs0 : s.stars =
      (if level.requirements.minCorrect ≤ c then
        (match level.requirements.timeLimit with
         | some tl => if tl ≠ 0 ∧ t > tl then max 1 (base - 1) else base
         | none => base)
       else 0) := rfl
  rw [if_pos hp] at hs0
  have hbase : 1 ≤ base := by
    by_cases h1 : s.accuracy ≥ 98
    · simp only [base, if_pos h1]
      omega
    · by_cases h2 : s.accuracy ≥ 93
      · simp only [base, if_neg h1, if_pos h2]
        omega
      · simp only [base, if_neg h1, if_neg h2]
        omega
  refine ⟨decide_eq_true hp, ?_, ?_, ?_, ?_⟩
  · intro h
    rw [h] at hs0
    exact hs0
  · intro tl htl hcond
    rw [htl] at hs0
    have : s.stars = (if tl ≠ 0 ∧ t > tl then max 1 (base - 1) else base) := hs0
    rw [this, if_neg hcond]
  · intro tl htl h0 hgt
    rw [htl] at hs0
    have : s.stars = (if tl ≠ 0 ∧ t > tl then max 1 (base - 1) else base) := hs0
    rw [this, if_pos ⟨h0, hgt⟩]
  · rcases htl : level.requirements.timeLimit with _ | tl
    · rw [htl] at hs0
      have : s.stars = base := hs0
      omega
    · rw [htl] at hs0
      have hsx : s.stars = (if tl ≠ 0 ∧ t > tl then max 1 (base - 1) else base) := hs0
      by_cases hcond : tl ≠ 0 ∧ t > tl
      · rw [hsx, if_pos hcond]
        exact le_max_left _ _
      · rw [hsx, if_neg hcond]
        exact hbase

/-- The level of the C4 spec scenario: 10 questions, 80% minimum accuracy,
8 minimum correct, no time limit. -/
def c4Level : LevelDef :=
  ⟨7, ⟨10, 80, none, 8⟩⟩

/-- Witness for C4 at the spec scenario: 8 correct out of 10 (80%) passes
with exactly 1 star. -/
theorem C4_star_grading_witness :
    (calculate_stats c4Level 8 10 60).passed_requirements = true ∧
    (calculate_stats c4Level 8 10 60).stars = 1 := by
  have h := C4_star_grading c4Level 8 10 60 (by decide)
  refine ⟨h.1, ?_⟩
  rw [h.2.1 rfl]
  norm_num [calculate_stats, c4Level]

/-- The level used in the C3 record-comparison counterexample: any correct
count passes, no time limit. -/
def c3Level : LevelDef :=
  ⟨1, ⟨10, 80, none, 1⟩⟩

/-- Counterexample to C3 as stated: against a stored record with 1 star,
accuracy 90 and time 100, a new 1-star result with strictly lower accuracy
89.995 (and lower time 50) is worse under the claimed strict order
(equal stars, higher accuracy first), yet `complete_level` overwrites the
stored record: accuracies differing by less than the code's 0.01 float
epsilon are compared as equal and the lower time then wins. -/
theorem C3_counterexample :
    (complete_level (fun _ => none) c3Level 9 10 100) 1 =
      some ⟨1, 1, 9, 10, 90, 100, true⟩
    ∧ (calculate_stats c3Level 17999 20000 50).stars = 1
    ∧ (calculate_stats c3Level 17999 20000 50).accuracy = 17999/200
    ∧ ((17999 : ℚ)/200 < 90)
    ∧ (complete_level (complete_level (fun _ => none) c3Level 9 10 100) c3Level 17999 20000 50) 1 =
      some ⟨1, 1, 17999, 20000, 17999/200, 50, true⟩ := by
  have habs : |(1:ℚ)/200| < 1/100 := by
    rw [abs_of_pos (by norm_num : (0:ℚ) < 1/200)]
    norm_num
  refine ⟨?_, ?_, ?_, by norm_num, ?_⟩ <;>
    norm_num [complete_level, calculate_stats, should_save_result, save_level_result,
      is_better_chain, c3Level, abs_sub_lt_iff, habs]

theorem should_save_result_some (completions : Nat → Option CompletionRecord)
    (level_id : Nat) (s : LevelStats) (old : CompletionRecord)
    (hold : completions level_id = some old) :
    should_save_result completions level_id s = (is_better_chain old s, is_better_chain old s) := by
  unfold should_save_result
  rw [hold]

theorem should_save_result_none (completions : Nat → Option CompletionRecord)
    (level_id : Nat) (s : LevelStats) (hold : completions level_id = none) :
    should_save_result completions level_id s = (true, true) := by
  unfold should_save_result
  rw [hold]

theorem is_better_chain_iff (old : CompletionRecord) (s : LevelStats)
    (htime : old.bestTime ≠ 0) :
    is_better_chain old s = true ↔
      (old.starsEarned < s.stars ∨ (s.stars = old.starsEarned ∧
        (old.bestAccuracy < s.accuracy ∨
          (|s.accuracy - old.bestAccuracy| < 1/100 ∧ s.time < old.bestTime)))) := by
  unfold is_better_chain
  by_cases h1 : old.starsEarned < s.stars
  · simp [h1]
  · by_cases h2 : s.stars = old.starsEarned
    · by_cases h3 : old.bestAccuracy < s.accuracy
      · simp [h1, h2, h3]
      · by_cases h4 : |s.accuracy - old.bestAccuracy| < 1/100
        · simp [h1, h2, h3, h4, htime]
        · have h4i : ¬|s.accuracy - old.bestAccuracy| < (100:ℚ)⁻¹ := by rwa [← one_div]
          simp [h1, h2, h3, h4, h4i]
    · simp [h1, h2]

/-- C3 (amended): level results are compared by: more stars first; at equal
stars, strictly higher accuracy; at equal stars and accuracies within the
code's 0.01 float epsilon, strictly lower time. A new result that is not
strictly better under this order — in particular an exact tie — leaves the
stored record unchanged, and a strictly better one overwrites starsEarned,
bestAccuracy and bestTime together. (A result with accuracy lower by less
than 0.01 but a lower time counts as strictly better, unlike the spec's
order; stated for stored records with nonzero best time — a stored best time
of 0 is legacy data treated as infinity.) -/
theorem C3_best_record (completions : Nat → Option CompletionRecord) (level : LevelDef)
    (c tot : Nat) (t : ℚ) (old : CompletionRecord)
    (hold : completions level.id = some old) (htime : old.bestTime ≠ 0) :
    let s := calculate_stats level c tot t
    let better := old.starsEarned < s.stars ∨ (s.stars = old.starsEarned ∧
        (old.bestAccuracy < s.accuracy ∨
          (|s.accuracy - old.bestAccuracy| < 1/100 ∧ s.time < old.bestTime)))
    (¬ better → complete_level completions level c tot t = completions)
    ∧ (better → ∀ i, complete_level completions level c tot t i =
        if i = level.id then
          some ⟨level.id, s.stars, c, tot, s.accuracy, t, true⟩
        else completions i) := by
  intro s better
  have hss := should_save_result_some completions level.id s old hold
  have hcl : complete_level completions level c tot t =
      (if (should_save_result completions level.id s).1 then
        save_level_result completions level.id s (should_save_result completions level.id s).2
       else completions) := rfl
  constructor
  · intro hnb
    have hb : is_better_chain old s = false :=
      Bool.eq_false_iff.mpr (fun hx => hnb ((is_better_chain_iff old s htime).mp hx))
    rw [hcl, hss]
    simp [hb]
  · intro hbet i
    have hb : is_better_chain old s = true := (is_better_chain_iff old s htime).mpr hbet
    rw [hcl, hss]
    simp only [hb, if_true]
    rfl

/-- A stored record used by the C3 witness. -/
def c3Old : CompletionRecord :=
  ⟨1, 1, 8, 10, 80, 100, true⟩

/-- The completion store used by the C3 witness. -/
def c3Store : Nat → Option CompletionRecord :=
  fun i => if i = 1 then some c3Old else none

/-- Witness for C3 (amended) at a concrete strictly better result: a 3-star
run overwrites a stored 1-star record, updating stars, accuracy and time
together. -/
theorem C3_best_record_witness :
    (complete_level c3Store c3Level 10 10 50) 1 = some ⟨1, 3, 10, 10, 100, 50, true⟩ := by
  have hb : c3Old.starsEarned < (calculate_stats c3Level 10 10 50).stars := by
    norm_num [calculate_stats, c3Level, c3Old]
  have h := (C3_best_record c3Store c3Level 10 10 50 c3Old
      (by norm_num [c3Store, c3Level]) (by norm_num [c3Old])).2 (Or.inl hb) 1
  rw [h]
  norm_num [calculate_stats, c3Level]

/-- The level of the C6 counterexample: 8 correct answers required. -/
def c6Level : LevelDef :=
  ⟨2, ⟨10, 80, none, 8⟩⟩

/-- Counterexample to C6 as stated: with an existing 0-star record (a
persisted first failed attempt, accuracy 0), a second failed attempt with
higher accuracy 50 is not discarded — `complete_level` overwrites the stored
record, because both have 0 stars and the comparison then prefers the higher
accuracy. -/
theorem C6_counterexample :
    (calculate_stats c6Level 5 10 100).passed_requirements = false
    ∧ (complete_level (fun _ => none) c6Level 0 10 100) 2 =
        some ⟨2, 0, 0, 10, 0, 100, true⟩
    ∧ (complete_level (complete_level (fun _ => none) c6Level 0 10 100) c6Level 5 10 100) 2 =
        some ⟨2, 0, 5, 10, 50, 100, true⟩ := by
  refine ⟨?_, ?_, ?_⟩ <;>
    norm_num [complete_level, calculate_stats, should_save_result, save_level_result,
      is_better_chain, c6Level]

/-- C6 (amended): a level evaluation fails exactly when the correct count is
below `minCorrect`; with no stored record, a failed attempt is still
persisted (a 0-star record is written); and when the stored record has at
least one star, every failed attempt is discarded, leaving the record
unchanged. (Against a stored 0-star record, a failed attempt that compares
strictly better — e.g. higher accuracy — does overwrite, unlike the original
claim.) -/
theorem C6_failed_attempts (completions : Nat → Option CompletionRecord) (level : LevelDef)
    (c tot : Nat) (t : ℚ) :
    let s := calculate_stats level c tot t
    (s.passed_requirements = false ↔ c < level.requirements.minCorrect)
    ∧ (completions level.id = none → complete_level completions level c tot t level.id =
        some ⟨level.id, s.stars, c, tot, s.accuracy, t, true⟩)
    ∧ (∀ old, completions level.id = some old → 1 ≤ old.starsEarned →
        c < level.requirements.minCorrect →
        complete_level completions level c tot t = completions) := by
  intro s
  have hcl : complete_level completions level c tot t =
      (if (should_save_result completions level.id s).1 then
        save_level_result completions level.id s (should_save_result completions level.id s).2
       else completions) := rfl
  refine ⟨?_, ?_, ?_⟩
  · have : s.passed_requirements = decide (level.requirements.minCorrect ≤ c) := rfl
    rw [this]
    constructor
    · intro h
      have := of_decide_eq_false h
      omega
    · intro h
      apply decide_eq_false
      omega
  · intro hnone
    have hss := should_save_result_none completions level.id s hnone
    rw [hcl, hss]
    simp only [if_true]
    show save_level_result completions level.id s true level.id = _
    unfold save_level_result
    rw [if_pos rfl]
    rfl
  · intro old hold hstar hfail
    have hss := should_save_result_some completions level.id s old hold
    have hstars0 : s.stars = 0 := by
      have h0 : s.stars =
          (if level.requirements.minCorrect ≤ c then
            (match level.requirements.timeLimit with
             | some tl => if tl ≠ 0 ∧ t > tl then
                 max 1 ((if s.accuracy ≥ 98 then 3 else if s.accuracy ≥ 93 then 2 else 1) - 1)
               else (if s.accuracy ≥ 98 then 3 else if s.accuracy ≥ 93 then 2 else 1)
             | none => (if s.accuracy ≥ 98 then 3 else if s.accuracy ≥ 93 then 2 else 1))
           else 0) := rfl
      rw [if_neg (by omega)] at h0
      exact h0
    have hb : is_better_chain old s = false := by
      unfold is_better_chain
      rw [if_neg (by omega), if_neg (by omega)]
    rw [hcl, hss]
    simp [hb]

/-- The completion store of the C6 witness: level 2 already has a 1-star
record. -/
def c6Store : Nat → Option CompletionRecord :=
  fun i => if i = 2 then some ⟨2, 1, 8, 10, 80, 100, true⟩ else none

/-- Witness for C6 (amended): a failed attempt (3 of 10 correct, 8 needed)
against a stored 1-star record leaves the store unchanged. -/
theorem C6_failed_attempts_witness :
    complete_level c6Store c6Level 3 10 100 = c6Store := by
  have h := (C6_failed_attempts c6Store c6Level 3 10 100).2.2
    ⟨2, 1, 8, 10, 80, 100, true⟩ (by norm_num [c6Store, c6Level]) (by norm_num) (by norm_num [c6Level])
  exact h

/-- One record of `achievements.json`. -/
structure AchievementRecord where
  id : Nat
  code : String
  name : String
  unlocked_at : Nat
deriving DecidableEq, Repr

/-- Function `unlock_achievement` of `json_storage.py`: if a record with the
code exists, return false and leave the store alone; otherwise append a new
record and return true.  `AchievementManager._try_unlock` of
`gamification.py` delegates to it through an in-memory cache of the same
codes. -/
def unlock_achievement (achievements : List AchievementRecord) (code name : String)
    (now : Nat) : Bool × List AchievementRecord :=
  if achievements.any (fun a => a.code == code) then (false, achievements)
  else (true, achievements ++ [⟨achievements.length + 1, code, name, now⟩])

/-- One unlock request, as data. -/
structure UnlockOp where
  code : String
  name : String
  now : Nat

/-- Run a sequence of unlock requests against an achievements store. -/
def runUnlocks (achievements : List AchievementRecord) (ops : List UnlockOp) :
    List AchievementRecord :=
  ops.foldl (fun st o => (unlock_achievement st o.code o.name o.now).2) achievements

theorem mem_unlock_achievement (st : List AchievementRecord) (c n : String) (t : Nat)
    (a : AchievementRecord) (ha : a ∈ st) : a ∈ (unlock_achievement st c n t).2 := by
  unfold unlock_achievement
  by_cases h : st.any (fun x => x.code == c)
  · rw [if_pos h]
    exact ha
  · rw [if_neg h]
    exact List.mem_append_left _ ha

theorem mem_runUnlocks (st : List AchievementRecord) (ops : List UnlockOp)
    (a : AchievementRecord) (ha : a ∈ st) : a ∈ runUnlocks st ops := by
  induction ops generalizing st with
  | nil => exact ha
  | cons o os ih => exact ih _ (mem_unlock_achievement st o.code o.name o.now a ha)

theorem unlock_false_of_mem (st : List AchievementRecord) (c n : String) (t : Nat)
    (h : ∃ a ∈ st, a.code = c) : (unlock_achievement st c n t).1 = false := by
  unfold unlock_achievement
  have hany : st.any (fun x => x.code == c) = true := by
    rcases h with ⟨a, ha, hc⟩
    exact List.any_eq_true.mpr ⟨a, ha, by simp [hc]⟩
  rw [if_pos hany]

/-- C5: the first unlock call for a badge code returns true and inserts it;
a call for an already-present code returns false and leaves the store
unchanged; after an unlock of a code, that code is present, it survives any
further sequence of unlock operations, and every later unlock call for the
same code returns false. -/
theorem C5_achievement_unlock (achievements : List AchievementRecord)
    (code name : String) (now : Nat) :
    let r := unlock_achievement achievements code name now
    ((∀ a ∈ achievements, a.code ≠ code) → r.1 = true ∧
        r.2 = achievements ++ [⟨achievements.length + 1, code, name, now⟩])
    ∧ ((∃ a ∈ achievements, a.code = code) → r.1 = false ∧ r.2 = achievements)
    ∧ (∃ a ∈ r.2, a.code = code)
    ∧ (∀ ops, ∀ a ∈ achievements, a ∈ runUnlocks achievements ops)
    ∧ (∀ ops code2 name2 now2, (∃ a ∈ achievements, a.code = code2) →
        (unlock_achievement (runUnlocks achievements ops) code2 name2 now2).1 = false)
    ∧ (∀ ops name2 now2,
        (unlock_achievement (runUnlocks r.2 ops) code name2 now2).1 = false) := by
  intro r
  have hmem : ∃ a ∈ r.2, a.code = code := by
    show ∃ a ∈ (unlock_achievement achievements code name now).2, a.code = code
    unfold unlock_achievement
    by_cases h : achievements.any (fun x => x.code == code)
    · rw [if_pos h]
      rcases List.any_eq_true.mp h with ⟨a, ha, hc⟩
      exact ⟨a, ha, by simpa using hc⟩
    · rw [if_neg h]
      exact ⟨⟨achievements.length + 1, code, name, now⟩,
        List.mem_append_right _ (List.mem_singleton_self _), rfl⟩
  refine ⟨?_, ?_, hmem, ?_, ?_, ?_⟩
  · intro hnone
    have hany : achievements.any (fun x => x.code == code) = false := by
      apply List.any_eq_false.mpr
      intro a ha
      simpa using hnone a ha
    constructor
    · show (unlock_achievement achievements code name now).1 = true
      unfold unlock_achievement
      rw [hany]
      rfl
    · show (unlock_achievement achievements code name now).2 = _
      unfold unlock_achievement
      rw [hany]
      rfl
  · intro hsome
    have hany : achievements.any (fun x => x.code == code) = true := by
      rcases hsome with ⟨a, ha, hc⟩
      exact List.any_eq_true.mpr ⟨a, ha, by simp [hc]⟩
    constructor
    · show (unlock_achievement achievements code name now).1 = false
      unfold unlock_achievement
      rw [hany]
      rfl
    · show (unlock_achievement achievements code name now).2 = achievements
      unfold unlock_achievement
      rw [hany]
      rfl
  · intro ops a ha
    exact mem_runUnlocks achievements ops a ha
  · intro ops code2 name2 now2 hsome
    rcases hsome with ⟨a, ha, hc⟩
    exact unlock_false_of_mem _ _ name2 _ ⟨a, mem_runUnlocks achievements ops a ha, hc⟩
  · intro ops name2 now2
    rcases hmem with ⟨a, ha, hc⟩
    exact unlock_false_of_mem _ _ name2 _ ⟨a, mem_runUnlocks r.2 ops a ha, hc⟩

/-- The badge code used by the C5 witness. -/
def achFirstCode : String := "first_steps"

/-- The badge name used by the C5 witness. -/
def achFirstName : String := "First Steps"

/-- Witness for C5: unlocking a code on an empty store returns true, and a
second unlock of the same code returns false. -/
theorem C5_achievement_unlock_witness :
    (unlock_achievement [] achFirstCode achFirstName 0).1 = true
    ∧ (unlock_achievement (unlock_achievement [] achFirstCode achFirstName 0).2
        achFirstCode achFirstName 1).1 = false := by
  have h := C5_achievement_unlock [] achFirstCode achFirstName 0
  exact ⟨(h.1 (by simp)).1, h.2.2.2.2.2 [] achFirstName 1⟩

/-- The descending sort order of `get_weakness_areas`: Python's stable
`sort(key=(weakness_score, last_practiced), reverse=True)` places `a` before
`b` exactly when `b`'s key pair is lexicographically at most `a`'s. -/
def weaknessKeyGe (a b : WeaknessEntry) : Prop :=
  b.weakness_score < a.weakness_score ∨
    (b.weakness_score = a.weakness_score ∧ b.last_practiced ≤ a.last_practiced)

instance : DecidableRel weaknessKeyGe := fun a b => by
  unfold weaknessKeyGe
  infer_instance

instance : IsTotal WeaknessEntry weaknessKeyGe := ⟨by
  intro a b
  unfold weaknessKeyGe
  rcases lt_trichotomy a.weakness_score b.weakness_score with h | h | h
  · exact Or.inr (Or.inl h)
  · by_cases hl : a.last_practiced ≤ b.last_practiced
    · exact Or.inr (Or.inr ⟨h, hl⟩)
    · exact Or.inl (Or.inr ⟨h.symm, by omega⟩)
  · exact Or.inl (Or.inl h)⟩

instance : IsTrans WeaknessEntry weaknessKeyGe := ⟨by
  intro a b c hab hbc
  unfold weaknessKeyGe at hab hbc ⊢
  rcases hab with h1 | ⟨h1, h1l⟩ <;> rcases hbc with h2 | ⟨h2, h2l⟩
  · exact Or.inl (h2.trans h1)
  · exact Or.inl (lt_of_le_of_lt (le_of_eq h2) h1)
  · exact Or.inl (lt_of_lt_of_le h2 (le_of_eq h1))
  · exact Or.inr ⟨h2.trans h1, h2l.trans h1l⟩⟩

/-- Function `get_weakness_areas` of `json_storage.py`: keep the entries with
weakness score above 20 and sort them by the reversed
`(weakness_score, last_practiced)` key. -/
def get_weakness_areas (weakness_data : List WeaknessEntry) : List WeaknessEntry :=
  (weakness_data.filter (fun w => decide (20 < w.weakness_score))).insertionSort weaknessKeyGe

/-- The first entry of the C7 counterexample: practiced longer ago. -/
def c7a : WeaknessEntry :=
  ⟨Operation.Addition, 1, 80, 0, 5, Mastery.Novice, 5, 3, 3⟩

/-- The second entry of the C7 counterexample: same weakness score, practiced
more recently. -/
def c7b : WeaknessEntry :=
  ⟨Operation.Subtraction, 1, 80, 0, 9, Mastery.Novice, 5, 3, 3⟩

/-- Counterexample to C7 as stated: two cells share weakness score 80 and the
one practiced more recently (later lastPracticedDate) comes FIRST —
`reverse=True` reverses the tie-break too, so ties are in descending, not
ascending, order of lastPracticedDate. -/
theorem C7_counterexample :
    c7a.weakness_score = c7b.weakness_score
    ∧ c7a.last_practiced < c7b.last_practiced
    ∧ get_weakness_areas [c7a, c7b] = [c7b, c7a] := by
  refine ⟨rfl, by norm_num [c7a, c7b], ?_⟩
  norm_num [get_weakness_areas, c7a, c7b, weaknessKeyGe, List.filter]

/-- C7 (amended): `get_weakness_areas` returns exactly the cells with
weakness score above 20, sorted in descending order of weakness score, with
ties between equal scores broken in DESCENDING order of lastPracticedDate
(the most recently practiced of two equally weak cells comes first). -/
theorem C7_weakness_areas (weakness_data : List WeaknessEntry) :
    (get_weakness_areas weakness_data).Perm
        (weakness_data.filter (fun w => decide (20 < w.weakness_score)))
    ∧ (get_weakness_areas weakness_data).Pairwise (fun a b =>
        b.weakness_score < a.weakness_score ∨
          (b.weakness_score = a.weakness_score ∧ b.last_practiced ≤ a.last_practiced)) := by
  constructor
  · exact List.perm_insertionSort weaknessKeyGe _
  · exact List.sorted_insertionSort weaknessKeyGe _

/-- One record of `sessions.json` (the additive merge of `import_all_data`
deduplicates sessions by the `created` timestamp field). -/
structure SessionRec where
  id : Nat
  mode : String
  operation : Operation
  digits : Nat
  total_attempts : Nat
  correct_count : Nat
  avg_speed : ℚ
  created : Nat
deriving DecidableEq, Repr

/-- The attempts part of the additive-merge branch of `import_all_data`
(`json_storage.py`): an imported attempt is appended unless an already-kept
attempt has the same `timestamp`. -/
def mergeAttempts (existing imported : List Attempt) : List Attempt :=
  imported.foldl (fun acc a =>
    if acc.any (fun x => x.timestamp == a.timestamp) then acc else acc ++ [a]) existing

/-- The sessions part of the additive merge: an imported session is appended
unless an already-kept session has the same `created` timestamp. -/
def mergeSessions (existing imported : List SessionRec) : List SessionRec :=
  imported.foldl (fun acc s =>
    if acc.any (fun x => x.created == s.created) then acc else acc ++ [s]) existing

/-- The achievements part of the additive merge: the pre-merge set of codes
is computed once, and an imported achievement is appended unless its code is
in that set. -/
def mergeAchievements (existing imported : List AchievementRecord) : List AchievementRecord :=
  let existing_codes := existing.map (fun a => a.code)
  imported.foldl (fun acc a =>
    if existing_codes.contains a.code then acc else acc ++ [a]) existing

/-- The session mode label used in the C9 records. -/
def sessionModeFree : String := "Free Practice"

/-- The pre-existing session of the C9 counterexample. -/
def c9s1 : SessionRec :=
  ⟨1, sessionModeFree, Operation.Addition, 1, 10, 8, 3, 100⟩

/-- The imported session of the C9 counterexample: the same session id but a
different `created` timestamp. -/
def c9s2 : SessionRec :=
  ⟨1, sessionModeFree, Operation.Addition, 1, 10, 9, 3, 200⟩

/-- Counterexample to C9 as stated: an imported session with the same session
id as an existing one but a different `created` timestamp is appended anyway
— sessions are deduplicated by the `created` field, not by session id. -/
theorem C9_counterexample :
    c9s1.id = c9s2.id
    ∧ c9s1.created ≠ c9s2.created
    ∧ mergeSessions [c9s1] [c9s2] = [c9s1, c9s2] := by
  refine ⟨rfl, by norm_num [c9s1, c9s2], ?_⟩
  norm_num [mergeSessions, c9s1, c9s2, sessionModeFree]

theorem mergeAttempts_of_present (acc imp : List Attempt)
    (h : ∀ a ∈ imp, ∃ x ∈ acc, x.timestamp = a.timestamp) :
    mergeAttempts acc imp = acc := by
  induction imp generalizing acc with
  | nil => rfl
  | cons a as ih =>
    have hany : acc.any (fun x => x.timestamp == a.timestamp) = true := by
      rcases h a (List.mem_cons_self a as) with ⟨x, hx, ht⟩
      exact List.any_eq_true.mpr ⟨x, hx, by simp [ht]⟩
    unfold mergeAttempts
    rw [List.foldl_cons, if_pos hany]
    exact ih acc (fun b hb => h b (List.mem_cons_of_mem a hb))

theorem mergeSessions_of_present (acc imp : List SessionRec)
    (h : ∀ s ∈ imp, ∃ x ∈ acc, x.created = s.created) :
    mergeSessions acc imp = acc := by
  induction imp generalizing acc with
  | nil => rfl
  | cons s ss ih =>
    have hany : acc.any (fun x => x.created == s.created) = true := by
      rcases h s (List.mem_cons_self s ss) with ⟨x, hx, ht⟩
      exact List.any_eq_true.mpr ⟨x, hx, by simp [ht]⟩
    unfold mergeSessions
    rw [List.foldl_cons, if_pos hany]
    exact ih acc (fun b hb => h b (List.mem_cons_of_mem s hb))

theorem achFold_of_present (codes : List String) (imp : List AchievementRecord)
    (acc : List AchievementRecord) (h : ∀ a ∈ imp, codes.contains a.code = true) :
    imp.foldl (fun acc a => if codes.contains a.code then acc else acc ++ [a]) acc = acc := by
  induction imp generalizing acc with
  | nil => rfl
  | cons a as ih =>
    rw [List.foldl_cons, if_pos (h a (List.mem_cons_self a as))]
    exact ih acc (fun b hb => h b (List.mem_cons_of_mem a hb))

/-- C9 (amended): the additive merge deduplicates attempts by `timestamp`,
sessions by the `created` timestamp (not by session id), and achievements by
badge code; hence a bundle whose attempt timestamps, session creation stamps
and badge codes are all already present leaves the attempts, sessions and
achievements collections unchanged. -/
theorem C9_merge_import (ea ia : List Attempt) (es2 is2 : List SessionRec)
    (eh2 ih2 : List AchievementRecord) :
    ((∀ a ∈ ia, ∃ x ∈ ea, x.timestamp = a.timestamp) → mergeAttempts ea ia = ea)
    ∧ ((∀ s ∈ is2, ∃ x ∈ es2, x.created = s.created) → mergeSessions es2 is2 = es2)
    ∧ ((∀ a ∈ ih2, ∃ x ∈ eh2, x.code = a.code) → mergeAchievements eh2 ih2 = eh2) := by
  refine ⟨mergeAttempts_of_present ea ia, mergeSessions_of_present es2 is2, ?_⟩
  intro h
  apply achFold_of_present
  intro a ha
  rcases h a ha with ⟨x, hx, hc⟩
  have : x.code ∈ eh2.map (fun r => r.code) := List.mem_map_of_mem _ hx
  rw [hc] at this
  simpa using this

/-- The attempt record of the C9 witness. -/
def c9att : Attempt :=
  ⟨Operation.Multiplication, 2, true, 3, 7⟩

/-- The achievement record of the C9 witness. -/
def c9ach : AchievementRecord :=
  ⟨1, achFirstCode, achFirstName, 4⟩

/-- Witness for C9 (amended): merging a bundle whose attempt, session and
achievement are already present leaves all three collections unchanged. -/
theorem C9_merge_import_witness :
    mergeAttempts [c9att] [c9att] = [c9att]
    ∧ mergeSessions [c9s1] [c9s1] = [c9s1]
    ∧ mergeAchievements [c9ach] [c9ach] = [c9ach] := by
  have h := C9_merge_import [c9att] [c9att] [c9s1] [c9s1] [c9ach] [c9ach]
  exact ⟨h.1 (fun a ha => ⟨a, ha, rfl⟩), h.2.1 (fun s hs => ⟨s, hs, rfl⟩),
    h.2.2 (fun a ha => ⟨a, ha, rfl⟩)⟩

/-- The skill-level labels assigned by `SmartCoach.analyze` (`coach.py`),
plus the `New` label of the default learning path. -/
inductive SkillLevel
  | Master
  | Proficient
  | Competent
  | Learning
  | Struggling
  | New
deriving DecidableEq, Repr

/-- Dictionary semantics of `self.knowledge_map[(op, digits)]` as filled by
`analyze`: the last write wins, so the lookup scans the weakness list from
the end; the stored skill score is `100 - weakness_score`. -/
def knowledgeScore (wd : List WeaknessEntry) (op : Operation) (d : Nat) : Option ℚ :=
  (wd.reverse.find? (fun w => w.operation == op && w.digits == d)).map
    (fun w => 100 - w.weakness_score)

/-- The level label `analyze` derives from the skill score. -/
def skillLevelOf (score : ℚ) : SkillLevel :=
  if score ≥ 90 then SkillLevel.Master
  else if score ≥ 80 then SkillLevel.Proficient
  else if score ≥ 70 then SkillLevel.Competent
  else if score ≥ 50 then SkillLevel.Learning
  else SkillLevel.Struggling

/-- One entry of `self.learning_path`. -/
structure PathSkill where
  operation : Operation
  digits : Nat
  priority : ℚ
  current_score : ℚ
  level : SkillLevel
deriving DecidableEq, Repr

/-- The operation order `update_learning_path` iterates. -/
def opsOrder : List Operation :=
  [Operation.Addition, Operation.Subtraction, Operation.Multiplication, Operation.Division]

/-- The descending stable priority order of the learning-path sort. -/
def pathPriorityGe (a b : PathSkill) : Prop := b.priority ≤ a.priority

instance : DecidableRel pathPriorityGe := fun a b => by
  unfold pathPriorityGe
  infer_instance

instance : IsTotal PathSkill pathPriorityGe :=
  ⟨fun a b => (le_total b.priority a.priority).imp id id⟩

instance : IsTrans PathSkill pathPriorityGe :=
  ⟨fun _ _ _ h1 h2 => le_trans h2 h1⟩

/-- The default learning path used when no skill is known. -/
def defaultPath : List PathSkill :=
  [⟨Operation.Addition, 1, 100, 0, SkillLevel.New⟩,
   ⟨Operation.Subtraction, 1, 90, 0, SkillLevel.New⟩,
   ⟨Operation.Multiplication, 1, 80, 0, SkillLevel.New⟩]

/-- Method `SmartCoach.update_learning_path` applied to an analyzed knowledge
map: each known cell among the four operations and digits 1–3 gets priority
`100 - score` (the review-urgency bonus never fires because `analyze` stores
`next_review = None`, and the recency bonus is 0 because `analyze` stamps
`last_practiced` with today), sorted by priority descending; an empty path is
replaced by the defaults. The cells iterated are the four operations crossed
with digits 1 to 3. -/
def pathCells : List (Operation × Nat) :=
  opsOrder.flatMap (fun op => ([1, 2, 3] : List Nat).map (fun d => (op, d)))

/-- The unsorted learning-path entries: one per known cell of the grid. -/
def rawPath (wd : List WeaknessEntry) : List PathSkill :=
  pathCells.filterMap (fun c => (knowledgeScore wd c.1 c.2).map
    (fun s => ⟨c.1, c.2, 100 - s, s, skillLevelOf s⟩))

def buildPath (wd : List WeaknessEntry) : List PathSkill :=
  if ((rawPath wd).insertionSort pathPriorityGe).isEmpty then defaultPath
  else (rawPath wd).insertionSort pathPriorityGe

/-- The learning path computed by `get_recommendation` from the raw weakness
store (`analyze` reads the store through `get_weakness_areas`). -/
def coachPath (store : List WeaknessEntry) : List PathSkill :=
  buildPath (get_weakness_areas store)

/-- The `immediate_needs` list of `get_recommendation`: learning-path entries
whose cell is in the knowledge map with score below 40. -/
def immediateNeeds (store : List WeaknessEntry) : List PathSkill :=
  (coachPath store).filter (fun s =>
    match knowledgeScore (get_weakness_areas store) s.operation s.digits with
    | some sc => decide (sc < 40)
    | none => false)

/-- The reason tags of `get_recommendation`, one per message template. -/
inductive RecTag
  | critical
  | review
  | newSkill
  | confidence
  | solidify
  | speed
  | mastery
  | maintain
  | start
deriving DecidableEq, Repr

/-- The message template chosen for the weighted-random tier, by level. -/
def tagOfLevel : SkillLevel → RecTag
  | SkillLevel.New => RecTag.newSkill
  | SkillLevel.Struggling => RecTag.confidence
  | SkillLevel.Learning => RecTag.solidify
  | SkillLevel.Competent => RecTag.speed
  | SkillLevel.Proficient => RecTag.mastery
  | SkillLevel.Master => RecTag.maintain

/-- A recommendation: the chosen cell and which reason template its message
came from. -/
structure Recommendation where
  operation : Operation
  digits : Nat
  tag : RecTag
deriving DecidableEq, Repr

/-- Python's `min(needs, key=lambda x: x['current_score'])`: the first
element with minimal current score. -/
def minByScoreFirst : List PathSkill → Option PathSkill
  | [] => none
  | x :: xs => some (xs.foldl (fun best y =>
      if y.current_score < best.current_score then y else best) x)

/-- Method `SmartCoach.get_recommendation`: the critical tier returns the
minimal-score immediate need; the overdue-review tier never fires because
`analyze` stores `next_review = None` for every cell and nothing sets it
before the check; otherwise `random.choices` over the top five path entries
is modelled by the `pick` parameter. -/
def get_recommendation (store : List WeaknessEntry)
    (pick : List PathSkill → PathSkill) : Recommendation :=
  match minByScoreFirst (immediateNeeds store) with
  | some target => ⟨target.operation, target.digits, RecTag.critical⟩
  | none =>
    let consideration := (coachPath store).take 5
    if consideration.isEmpty then ⟨Operation.Addition, 1, RecTag.start⟩
    else
      let target := pick consideration
      ⟨target.operation, target.digits, tagOfLevel target.level⟩

/-- The weakness store of the C8 counterexample: a single cell with weakness
score exactly 60. -/
def c8Store : List WeaknessEntry :=
  [⟨Operation.Addition, 1, 60, 0, 5, Mastery.Apprentice, 5, 3, 3⟩]

/-- The concrete choice function used to evaluate the random tier in the C8
counterexample. -/
def c8PickHead : List PathSkill → PathSkill :=
  fun l => l.headD ⟨Operation.Addition, 1, 0, 0, SkillLevel.New⟩

/-- Counterexample to C8 as stated: with a cell whose weakness score is
exactly 60 (the claim's "60 or more"), the critical tier does not fire — the
code requires a skill score strictly below 40, i.e. weakness strictly above
60 — and the recommendation falls through to the weighted-random tier with
the build-confidence tag instead of CRITICAL. -/
theorem C8_counterexample :
    (∃ w ∈ c8Store, 60 ≤ w.weakness_score)
    ∧ get_recommendation c8Store c8PickHead =
        ⟨Operation.Addition, 1, RecTag.confidence⟩ := by
  constructor
  · exact ⟨⟨Operation.Addition, 1, 60, 0, 5, Mastery.Apprentice, 5, 3, 3⟩,
      List.mem_singleton_self _, by norm_num⟩
  · norm_num [get_recommendation, immediateNeeds, coachPath, buildPath, rawPath, pathCells,
      get_weakness_areas, knowledgeScore, skillLevelOf, minByScoreFirst, opsOrder, c8Store,
      c8PickHead, tagOfLevel, defaultPath, List.filter, List.filterMap, List.find?]

theorem find?_eq_of_unique {α : Type} (l : List α) (p : α → Bool) (w : α)
    (hw : w ∈ l) (hpw : p w = true) (huniq : ∀ x ∈ l, p x = true → x = w) :
    l.find? p = some w := by
  induction l with
  | nil => cases hw
  | cons a as ih =>
    by_cases hpa : p a = true
    · rw [List.find?_cons_of_pos as hpa]
      rw [huniq a (List.mem_cons_self a as) hpa]
    · rw [List.find?_cons_of_neg as hpa]
      have hwa : w ∈ as := by
        rcases List.mem_cons.mp hw with h | h
        · rw [h] at hpw
          exact absurd hpw hpa
        · exact h
      exact ih hwa (fun x hx hpx => huniq x (List.mem_cons_of_mem a hx) hpx)

/-- Two weakness entries describe different skill cells. -/
def cellKeyDistinct (a b : WeaknessEntry) : Prop :=
  ¬(a.operation = b.operation ∧ a.digits = b.digits)

theorem cellKeyDistinct_symm : Symmetric cellKeyDistinct := by
  intro a b h hc
  exact h ⟨hc.1.symm, hc.2.symm⟩

theorem wd_pairwise (store : List WeaknessEntry)
    (hkeys : store.Pairwise cellKeyDistinct) :
    (get_weakness_areas store).Pairwise cellKeyDistinct := by
  have hfil : (store.filter (fun w => decide (20 < w.weakness_score))).Pairwise cellKeyDistinct :=
    List.Pairwise.sublist (List.filter_sublist store) hkeys
  unfold get_weakness_areas
  exact ((List.perm_insertionSort weaknessKeyGe _).pairwise_iff
    (fun h => cellKeyDistinct_symm h)).mpr hfil

theorem mem_get_weakness_areas (store : List WeaknessEntry) (w : WeaknessEntry) :
    w ∈ get_weakness_areas store ↔ (w ∈ store ∧ 20 < w.weakness_score) := by
  unfold get_weakness_areas
  rw [(List.perm_insertionSort weaknessKeyGe _).mem_iff, List.mem_filter]
  simp

theorem knowledgeScore_of_mem (wd : List WeaknessEntry)
    (hpw : wd.Pairwise cellKeyDistinct) (w : WeaknessEntry) (hw : w ∈ wd) :
    knowledgeScore wd w.operation w.digits = some (100 - w.weakness_score) := by
  unfold knowledgeScore
  rw [find?_eq_of_unique wd.reverse _ w (List.mem_reverse.mpr hw) (by simp)
    (fun x hx hpx => by
      have hx2 : x ∈ wd := List.mem_reverse.mp hx
      have hkey : x.operation = w.operation ∧ x.digits = w.digits := by
        simpa using hpx
      by_contra hne
      exact (hpw.forall cellKeyDistinct_symm hx2 hw hne) hkey)]
  rfl

theorem knowledgeScore_some (wd : List WeaknessEntry) (op : Operation) (d : Nat) (s : ℚ)
    (h : knowledgeScore wd op d = some s) :
    ∃ w ∈ wd, w.operation = op ∧ w.digits = d ∧ s = 100 - w.weakness_score := by
  unfold knowledgeScore at h
  rcases hfind : wd.reverse.find? (fun w => w.operation == op && w.digits == d) with _ | w
  · rw [hfind] at h
    cases h
  · rw [hfind] at h
    have hw : w ∈ wd := List.mem_reverse.mp (List.mem_of_find?_eq_some hfind)
    have hp := List.find?_some hfind
    have hkey : w.operation = op ∧ w.digits = d := by simpa using hp
    exact ⟨w, hw, hkey.1, hkey.2, (Option.some.inj h).symm⟩

/-- The learning-path entry a known weakness cell produces. -/
def pathOf (w : WeaknessEntry) : PathSkill :=
  ⟨w.operation, w.digits, 100 - (100 - w.weakness_score), 100 - w.weakness_score,
    skillLevelOf (100 - w.weakness_score)⟩

theorem mem_pathCells (op : Operation) (d : Nat) :
    (op, d) ∈ pathCells ↔ (d = 1 ∨ d = 2 ∨ d = 3) := by
  have hcells : pathCells =
      [(Operation.Addition, 1), (Operation.Addition, 2), (Operation.Addition, 3),
       (Operation.Subtraction, 1), (Operation.Subtraction, 2), (Operation.Subtraction, 3),
       (Operation.Multiplication, 1), (Operation.Multiplication, 2), (Operation.Multiplication, 3),
       (Operation.Division, 1), (Operation.Division, 2), (Operation.Division, 3)] := rfl
  rw [hcells]
  cases op <;> simp [Prod.ext_iff]

theorem mem_rawPath (wd : List WeaknessEntry) (x : PathSkill) :
    x ∈ rawPath wd ↔ ∃ c ∈ pathCells, ∃ s, knowledgeScore wd c.1 c.2 = some s ∧
      x = ⟨c.1, c.2, 100 - s, s, skillLevelOf s⟩ := by
  unfold rawPath
  simp only [List.mem_filterMap, Option.map_eq_some']
  constructor
  · rintro ⟨c, hc, s, hk, hfs⟩
    exact ⟨c, hc, s, hk, hfs.symm⟩
  · rintro ⟨c, hc, s, hk, hx⟩
    exact ⟨c, hc, s, hk, hx.symm⟩

theorem coachPath_eq (store : List WeaknessEntry)
    (h : rawPath (get_weakness_areas store) ≠ []) :
    coachPath store = (rawPath (get_weakness_areas store)).insertionSort pathPriorityGe := by
  unfold coachPath buildPath
  have hne : ((rawPath (get_weakness_areas store)).insertionSort pathPriorityGe) ≠ [] := by
    intro hnil
    have hlen := (List.perm_insertionSort pathPriorityGe
      (rawPath (get_weakness_areas store))).length_eq
    rw [hnil] at hlen
    exact h (List.eq_nil_of_length_eq_zero hlen.symm)
  have hempty : ((rawPath (get_weakness_areas store)).insertionSort pathPriorityGe).isEmpty = false := by
    rcases hx : (rawPath (get_weakness_areas store)).insertionSort pathPriorityGe with _ | ⟨a, as⟩
    · exact absurd hx hne
    · rfl
  simp [hempty]

theorem coachPath_digits (store : List WeaknessEntry) (x : PathSkill)
    (hx : x ∈ coachPath store) :
    x.digits = 1 ∨ x.digits = 2 ∨ x.digits = 3 := by
  unfold coachPath buildPath at hx
  by_cases hempty : ((rawPath (get_weakness_areas store)).insertionSort pathPriorityGe).isEmpty
  · rw [if_pos hempty] at hx
    simp only [defaultPath, List.mem_cons, List.mem_singleton] at hx
    rcases hx with rfl | rfl | hx
    · exact Or.inl rfl
    · exact Or.inl rfl
    · simp at hx
      rw [hx]
      exact Or.inl rfl
  · rw [if_neg hempty] at hx
    have hx2 := (List.perm_insertionSort pathPriorityGe _).mem_iff.mp hx
    rcases (mem_rawPath _ _).mp hx2 with ⟨c, hc, s, _, rfl⟩
    rcases c with ⟨cop, cd⟩
    simpa using (mem_pathCells cop cd).mp hc

theorem mem_immediateNeeds (store : List WeaknessEntry) (x : PathSkill) :
    x ∈ immediateNeeds store ↔ x ∈ coachPath store ∧
      (∃ s, knowledgeScore (get_weakness_areas store) x.operation x.digits = some s ∧ s < 40) := by
  unfold immediateNeeds
  rw [List.mem_filter]
  constructor
  · rintro ⟨hp, hcond⟩
    refine ⟨hp, ?_⟩
    rcases hk : knowledgeScore (get_weakness_areas store) x.operation x.digits with _ | s
    · simp only [hk] at hcond
      exact absurd hcond (by decide)
    · simp only [hk] at hcond
      exact ⟨s, rfl, of_decide_eq_true hcond⟩
  · rintro ⟨hp, s, hk, hs⟩
    refine ⟨hp, ?_⟩
    simp only [hk]
    exact decide_eq_true hs

theorem pathOf_mem_immediateNeeds (store : List WeaknessEntry) (w : WeaknessEntry)
    (hkeys : store.Pairwise cellKeyDistinct) (hw : w ∈ store)
    (hd : w.digits = 1 ∨ w.digits = 2 ∨ w.digits = 3) (hcrit : 60 < w.weakness_score) :
    pathOf w ∈ immediateNeeds store ∧ rawPath (get_weakness_areas store) ≠ [] := by
  have h20 : (20:ℚ) < w.weakness_score := lt_trans (by norm_num) hcrit
  have hwwd : w ∈ get_weakness_areas store := (mem_get_weakness_areas store w).mpr ⟨hw, h20⟩
  have hpw := wd_pairwise store hkeys
  have hk := knowledgeScore_of_mem _ hpw w hwwd
  have hraw : pathOf w ∈ rawPath (get_weakness_areas store) := by
    rw [mem_rawPath]
    exact ⟨(w.operation, w.digits), (mem_pathCells _ _).mpr hd, 100 - w.weakness_score, hk, rfl⟩
  have hne : rawPath (get_weakness_areas store) ≠ [] := by
    intro hnil
    rw [hnil] at hraw
    exact (List.not_mem_nil _) hraw
  have hpath : pathOf w ∈ coachPath store := by
    rw [coachPath_eq store hne]
    exact (List.perm_insertionSort pathPriorityGe _).mem_iff.mpr hraw
  refine ⟨(mem_immediateNeeds store _).mpr ⟨hpath, 100 - w.weakness_score, hk, by linarith⟩, hne⟩

theorem immediateNeeds_entry (store : List WeaknessEntry) (x : PathSkill)
    (hkeys : store.Pairwise cellKeyDistinct) (hx : x ∈ immediateNeeds store) :
    ∃ w ∈ store, x.operation = w.operation ∧ x.digits = w.digits ∧
      x.current_score = 100 - w.weakness_score ∧ 60 < w.weakness_score := by
  rcases (mem_immediateNeeds store x).mp hx with ⟨hpath, s', hk', hs'⟩
  rcases knowledgeScore_some _ _ _ _ hk' with ⟨w2, hw2wd, hop2, hdig2, hseq⟩
  have hdx : x.digits = 1 ∨ x.digits = 2 ∨ x.digits = 3 := coachPath_digits store x hpath
  have hd2 : w2.digits = 1 ∨ w2.digits = 2 ∨ w2.digits = 3 := by
    rw [hdig2]
    exact hdx
  have hpw := wd_pairwise store hkeys
  have hk2 := knowledgeScore_of_mem _ hpw w2 hw2wd
  have hraw2 : pathOf w2 ∈ rawPath (get_weakness_areas store) := by
    rw [mem_rawPath]
    exact ⟨(w2.operation, w2.digits), (mem_pathCells _ _).mpr hd2, 100 - w2.weakness_score,
      hk2, rfl⟩
  have hne : rawPath (get_weakness_areas store) ≠ [] := by
    intro hnil
    rw [hnil] at hraw2
    exact (List.not_mem_nil _) hraw2
  have hxraw : x ∈ rawPath (get_weakness_areas store) := by
    rw [coachPath_eq store hne] at hpath
    exact (List.perm_insertionSort pathPriorityGe _).mem_iff.mp hpath
  rcases (mem_rawPath _ _).mp hxraw with ⟨c, _, s, hk, hxeq⟩
  have hxop : x.operation = c.1 := by rw [hxeq]
  have hxd : x.digits = c.2 := by rw [hxeq]
  have hxs : x.current_score = s := by rw [hxeq]
  rw [hxop, hxd, hk] at hk'
  have hss : s = s' := Option.some.inj hk'
  have hw2store : w2 ∈ store := ((mem_get_weakness_areas store w2).mp hw2wd).1
  refine ⟨w2, hw2store, hop2.symm, hdig2.symm, ?_, ?_⟩
  · rw [hxs, hss, hseq]
  · have : s' < 40 := hs'
    rw [hseq] at this
    linarith

theorem foldlMin_spec (xs : List PathSkill) (b : PathSkill) :
    (xs.foldl (fun best y => if y.current_score < best.current_score then y else best) b = b
      ∨ xs.foldl (fun best y => if y.current_score < best.current_score then y else best) b ∈ xs)
    ∧ (xs.foldl (fun best y => if y.current_score < best.current_score then y else best) b).current_score
        ≤ b.current_score
    ∧ ∀ x ∈ xs, (xs.foldl (fun best y => if y.current_score < best.current_score then y else best) b).current_score
        ≤ x.current_score := by
  induction xs generalizing b with
  | nil =>
    refine ⟨Or.inl rfl, le_refl _, ?_⟩
    intro x hx
    cases hx
  | cons y ys ih =>
    simp only [List.foldl_cons]
    by_cases hy : y.current_score < b.current_score
    · rw [if_pos hy]
      have h := ih y
      refine ⟨?_, ?_, ?_⟩
      · rcases h.1 with h1 | h1
        · refine Or.inr ?_
          rw [h1]
          exact List.mem_cons_self y ys
        · exact Or.inr (List.mem_cons_of_mem y h1)
      · exact le_trans h.2.1 (le_of_lt hy)
      · intro x hx
        rcases List.mem_cons.mp hx with rfl | hx2
        · exact h.2.1
        · exact h.2.2 x hx2
    · rw [if_neg hy]
      have h := ih b
      refine ⟨?_, ?_, ?_⟩
      · rcases h.1 with h1 | h1
        · exact Or.inl h1
        · exact Or.inr (List.mem_cons_of_mem y h1)
      · exact h.2.1
      · intro x hx
        rcases List.mem_cons.mp hx with rfl | hx2
        · exact le_trans h.2.1 (not_lt.mp hy)
        · exact h.2.2 x hx2

theorem minByScoreFirst_spec (l : List PathSkill) (m : PathSkill)
    (h : minByScoreFirst l = some m) :
    m ∈ l ∧ ∀ x ∈ l, m.current_score ≤ x.current_score := by
  cases l with
  | nil => cases h
  | cons x xs =>
    have hm : xs.foldl (fun best y => if y.current_score < best.current_score then y else best) x
        = m := Option.some.inj h
    have hs := foldlMin_spec xs x
    rw [hm] at hs
    constructor
    · rcases hs.1 with h1 | h1
      · exact h1 ▸ List.mem_cons_self x xs
      · exact List.mem_cons_of_mem x h1
    · intro z hz
      rcases List.mem_cons.mp hz with rfl | hz2
      · exact hs.2.1
      · exact hs.2.2 z hz2

theorem minByScoreFirst_isSome (l : List PathSkill) (h : l ≠ []) :
    ∃ m, minByScoreFirst l = some m := by
  cases l with
  | nil => exact absurd rfl h
  | cons x xs => exact ⟨_, rfl⟩

/-- C8 (amended): whenever some skill cell with one to three digits has a
weakness score STRICTLY above 60 (equivalently a derived skill score below
40), the recommendation engine deterministically — independently of the
random choice function — returns a maximal-weakness such cell tagged
CRITICAL, ahead of the review and weighted-random tiers. A cell at exactly
60 does not trigger the critical tier, and four-digit cells are never on the
learning path. Stated for stores with one entry per skill cell, as
`update_weakness_tracking` maintains. -/
theorem C8_critical_tier (store : List WeaknessEntry)
    (hkeys : store.Pairwise (fun a b => ¬(a.operation = b.operation ∧ a.digits = b.digits)))
    (hcrit : ∃ w ∈ store, (w.digits = 1 ∨ w.digits = 2 ∨ w.digits = 3) ∧ 60 < w.weakness_score) :
    ∀ pick pick2 : List PathSkill → PathSkill,
      get_recommendation store pick = get_recommendation store pick2
      ∧ (get_recommendation store pick).tag = RecTag.critical
      ∧ ∃ w ∈ store, (get_recommendation store pick).operation = w.operation
          ∧ (get_recommendation store pick).digits = w.digits
          ∧ 60 < w.weakness_score
          ∧ ∀ w2 ∈ store, (w2.digits = 1 ∨ w2.digits = 2 ∨ w2.digits = 3) →
              w2.weakness_score ≤ w.weakness_score := by
  intro pick pick2
  have hkeys2 : store.Pairwise cellKeyDistinct := hkeys
  rcases hcrit with ⟨e, he, hde, hce⟩
  have hmemi := pathOf_mem_immediateNeeds store e hkeys2 he hde hce
  have hne : immediateNeeds store ≠ [] := by
    intro hnil
    rw [hnil] at hmemi
    exact (List.not_mem_nil _) hmemi.1
  rcases minByScoreFirst_isSome _ hne with ⟨m, hm⟩
  have hrec : ∀ p : List PathSkill → PathSkill,
      get_recommendation store p = ⟨m.operation, m.digits, RecTag.critical⟩ := by
    intro p
    unfold get_recommendation
    rw [hm]
  rcases minByScoreFirst_spec _ m hm with ⟨hmmem, hmmin⟩
  rcases immediateNeeds_entry store m hkeys2 hmmem with ⟨wm, hwm, hop, hdig, hscore, hcw⟩
  refine ⟨(hrec pick).trans (hrec pick2).symm, by rw [hrec pick], ?_⟩
  refine ⟨wm, hwm, by rw [hrec pick]; exact hop, by rw [hrec pick]; exact hdig, hcw, ?_⟩
  intro w2 hw2 hd2
  by_cases h60 : 60 < w2.weakness_score
  · have h2 := pathOf_mem_immediateNeeds store w2 hkeys2 hw2 hd2 h60
    have hmin := hmmin (pathOf w2) h2.1
    have hps : (pathOf w2).current_score = 100 - w2.weakness_score := rfl
    rw [hps, hscore] at hmin
    linarith
  · push_neg at h60
    linarith

/-- The weakness store of the C8 witness: one cell with weakness 90. -/
def c8CritStore : List WeaknessEntry :=
  [⟨Operation.Division, 2, 90, 0, 3, Mastery.Novice, 4, 1, 9⟩]

/-- Witness for C8 (amended): with a single critical cell (weakness 90), the
recommendation is tagged CRITICAL under a concrete choice function. -/
theorem C8_critical_tier_witness :
    (get_recommendation c8CritStore c8PickHead).tag = RecTag.critical := by
  have h := C8_critical_tier c8CritStore (List.pairwise_singleton _ _)
    ⟨⟨Operation.Division, 2, 90, 0, 3, Mastery.Novice, 4, 1, 9⟩,
      List.mem_singleton_self _, Or.inr (Or.inl rfl), by norm_num⟩
    c8PickHead c8PickHead
  exact h.2.1

end MathDrill
